import Mathlib

/-!
Verification of the disclosure-table data model of the `diaphanous`
repository. The repository ships the data model as documentation
(`codebook.md`, in particular its sections 3.1 through 3.5) together with
markdown and notebook callers; the Python engine `diaphanous/platform/*.py`
itself is not part of the source tree examined here, so every operation is
modelled from the codebook's constraints where the codebook speaks, and from
the specification's words where only the specification describes the
operation. All numeric cells use `Int`/`ℚ` (exact rational semantics for the
floating point values appearing in the data).
-/

namespace Diaphanous

/-- Calendar periods of the codebook §3.1: quarter, half or full calendar
years. -/
inductive Period where
  | year (y : Nat)
  | half (y : Nat) (h : Nat)
  | quarter (y : Nat) (q : Nat)
deriving DecidableEq, Repr

/-- Validity of a period: four-digit year (leading zeros allowed by the
four-digit surface form), half ordinal in 1..2, quarter ordinal in 1..4. -/
def Period.valid : Period → Bool
  | .year y => y < 10000
  | .half y h => y < 10000 && 1 ≤ h && h ≤ 2
  | .quarter y q => y < 10000 && 1 ≤ q && q ≤ 4

/-- The quarters covered by a period, as absolute quarter indices
(`4 * year + ordinal`). Containment and overlap of periods are computed
from these calendar boundaries, not by string matching. -/
def Period.quarterSpan : Period → List Nat
  | .year y => [4 * y, 4 * y + 1, 4 * y + 2, 4 * y + 3]
  | .half y h => [4 * y + 2 * (h - 1), 4 * y + 2 * (h - 1) + 1]
  | .quarter y q => [4 * y + (q - 1)]

/-- Overlap of two periods: their quarter spans intersect. -/
def Period.overlapsWith (p q : Period) : Bool :=
  p.quarterSpan.any (fun i => q.quarterSpan.contains i)

/-- Containment: the second period's span lies inside the first one's. -/
def Period.containsPeriod (p q : Period) : Bool :=
  q.quarterSpan.all (fun i => p.quarterSpan.contains i)

/-- Numeric value of a digit character. -/
def digitVal (c : Char) : Nat := c.toNat - 48

/-- Value of a four-digit year from its digit characters. -/
def val4 (a b c d : Char) : Nat :=
  ((digitVal a * 10 + digitVal b) * 10 + digitVal c) * 10 + digitVal d

/-- Modelled from the spec: `parse(label)` of the period algebra (§4.1 of
the specification; the Python implementation is not under `src/`), on the
label's characters. Follows codebook §3.1: quarter and half years are
written as the four-digit year, a space, the letter `Q` or `H`, and a
one-digit ordinal; years are written as four digits; nothing else parses. -/
def parseChars : List Char → Option Period
  | [a, b, c, d] =>
      if a.isDigit && b.isDigit && c.isDigit && d.isDigit then
        some (.year (val4 a b c d))
      else none
  | [a, b, c, d, sp, k, e] =>
      if a.isDigit && b.isDigit && c.isDigit && d.isDigit && (sp = ' ') then
        if k = 'H' && (e = '1' || e = '2') then
          some (.half (val4 a b c d) (digitVal e))
        else if k = 'Q' && (e = '1' || e = '2' || e = '3' || e = '4') then
          some (.quarter (val4 a b c d) (digitVal e))
        else none
      else none
  | _ => none

/-- Period label parsing on strings. -/
def parse (s : String) : Option Period := parseChars s.toList

/-- The digit character for `n % 10`. -/
def digitChar (n : Nat) : Char :=
  match n % 10 with
  | 0 => '0' | 1 => '1' | 2 => '2' | 3 => '3' | 4 => '4'
  | 5 => '5' | 6 => '6' | 7 => '7' | 8 => '8' | _ => '9'

/-- The four digit characters of a year below 10000. -/
def year4 (y : Nat) : List Char :=
  [digitChar (y / 1000), digitChar (y / 100), digitChar (y / 10), digitChar y]

/-- Rendering of a period back to its canonical label (codebook §3.1). -/
def renderPeriod : Period → String
  | .year y => ⟨year4 y⟩
  | .half y h => ⟨year4 y ++ [' ', 'H', digitChar h]⟩
  | .quarter y q => ⟨year4 y ++ [' ', 'Q', digitChar q]⟩

theorem digitVal_digitChar (n : Nat) : digitVal (digitChar n) = n % 10 := by
  have h : n % 10 < 10 := Nat.mod_lt _ (by norm_num)
  have h10 : n % 10 = 0 ∨ n % 10 = 1 ∨ n % 10 = 2 ∨ n % 10 = 3 ∨ n % 10 = 4 ∨
      n % 10 = 5 ∨ n % 10 = 6 ∨ n % 10 = 7 ∨ n % 10 = 8 ∨ n % 10 = 9 := by omega
  rcases h10 with h' | h' | h' | h' | h' | h' | h' | h' | h' | h' <;>
    simp [digitChar, h', digitVal]

theorem isDigit_digitChar (n : Nat) : (digitChar n).isDigit = true := by
  have h10 : n % 10 = 0 ∨ n % 10 = 1 ∨ n % 10 = 2 ∨ n % 10 = 3 ∨ n % 10 = 4 ∨
      n % 10 = 5 ∨ n % 10 = 6 ∨ n % 10 = 7 ∨ n % 10 = 8 ∨ n % 10 = 9 := by omega
  rcases h10 with h' | h' | h' | h' | h' | h' | h' | h' | h' | h' <;>
    simp [digitChar, h']

theorem val4_year4 (y : Nat) (hy : y < 10000) :
    val4 (digitChar (y / 1000)) (digitChar (y / 100)) (digitChar (y / 10))
      (digitChar y) = y := by
  simp only [val4, digitVal_digitChar]
  omega

theorem digitChar_one : digitChar 1 = '1' := rfl

theorem digitChar_two : digitChar 2 = '2' := rfl

theorem digitChar_three : digitChar 3 = '3' := rfl

theorem digitChar_four : digitChar 4 = '4' := rfl

theorem digitVal_one : digitVal '1' = 1 := rfl

theorem digitVal_two : digitVal '2' = 2 := rfl

theorem digitVal_three : digitVal '3' = 3 := rfl

theorem digitVal_four : digitVal '4' = 4 := rfl

/-- Rendering a valid period and parsing the label returns the period. -/
theorem parse_renderPeriod (p : Period) (hp : p.valid = true) :
    parse (renderPeriod p) = some p := by
  cases p with
  | year y =>
      simp only [Period.valid, decide_eq_true_eq] at hp
      simp [renderPeriod, parse, parseChars, year4, String.toList,
        isDigit_digitChar, val4_year4 y hp]
  | half y h =>
      simp only [Period.valid, Bool.and_eq_true, decide_eq_true_eq] at hp
      obtain ⟨⟨hy, h1⟩, h2⟩ := hp
      have hcase : h = 1 ∨ h = 2 := by omega
      rcases hcase with rfl | rfl <;>
        simp [renderPeriod, parse, parseChars, year4, String.toList,
          isDigit_digitChar, val4_year4 y hy, digitChar_one, digitChar_two,
          digitVal_one, digitVal_two]
  | quarter y q =>
      simp only [Period.valid, Bool.and_eq_true, decide_eq_true_eq] at hp
      obtain ⟨⟨hy, h1⟩, h2⟩ := hp
      have hcase : q = 1 ∨ q = 2 ∨ q = 3 ∨ q = 4 := by omega
      rcases hcase with rfl | rfl | rfl | rfl <;>
        simp [renderPeriod, parse, parseChars, year4, String.toList,
          isDigit_digitChar, val4_year4 y hy, digitChar_one, digitChar_two,
          digitChar_three, digitChar_four, digitVal_one, digitVal_two,
          digitVal_three, digitVal_four]

/-- The three surface forms of codebook §3.1 and spec §4.1, stated
declaratively over the label's characters: four digits (`YYYY`), or four
digits, a space, `H` and an ordinal `1`-`2`, or four digits, a space, `Q`
and an ordinal `1`-`4`. -/
def IsPeriodLabelChars (l : List Char) : Prop :=
  (∃ a b c d, l = [a, b, c, d] ∧
    a.isDigit = true ∧ b.isDigit = true ∧ c.isDigit = true ∧ d.isDigit = true) ∨
  (∃ a b c d e, l = [a, b, c, d, ' ', 'H', e] ∧
    a.isDigit = true ∧ b.isDigit = true ∧ c.isDigit = true ∧ d.isDigit = true ∧
    (e = '1' ∨ e = '2')) ∨
  (∃ a b c d e, l = [a, b, c, d, ' ', 'Q', e] ∧
    a.isDigit = true ∧ b.isDigit = true ∧ c.isDigit = true ∧ d.isDigit = true ∧
    (e = '1' ∨ e = '2' ∨ e = '3' ∨ e = '4'))

/-- A string is a period label when its characters take one of the three
surface forms. -/
def IsPeriodLabel (s : String) : Prop := IsPeriodLabelChars s.toList

theorem parseChars_isSome_iff (l : List Char) :
    (parseChars l).isSome = true ↔ IsPeriodLabelChars l := by
  rcases l with _ | ⟨a, _ | ⟨b, _ | ⟨c, _ | ⟨d, _ | ⟨sp, _ | ⟨k, _ | ⟨e, _ | ⟨f, t⟩⟩⟩⟩⟩⟩⟩⟩
  · simp [parseChars, IsPeriodLabelChars]
  · simp [parseChars, IsPeriodLabelChars]
  · simp [parseChars, IsPeriodLabelChars]
  · simp [parseChars, IsPeriodLabelChars]
  · simp only [parseChars, IsPeriodLabelChars]
    constructor
    · intro h
      split_ifs at h with hc
      · simp only [Bool.and_eq_true] at hc
        exact Or.inl ⟨a, b, c, d, rfl, hc.1.1.1, hc.1.1.2, hc.1.2, hc.2⟩
      · simp at h
    · rintro (⟨a', b', c', d', heq, h1, h2, h3, h4⟩ |
              ⟨a', b', c', d', e', heq, _⟩ | ⟨a', b', c', d', e', heq, _⟩)
      · obtain ⟨rfl, rfl, rfl, rfl⟩ : a = a' ∧ b = b' ∧ c = c' ∧ d = d' := by
          simpa using heq
        simp [h1, h2, h3, h4]
      · simp at heq
      · simp at heq
  · simp [parseChars, IsPeriodLabelChars]
  · simp [parseChars, IsPeriodLabelChars]
  · simp only [parseChars, IsPeriodLabelChars]
    constructor
    · intro h
      split_ifs at h with h1 h2 h3
      · simp only [Bool.and_eq_true, decide_eq_true_eq, Bool.or_eq_true] at h1 h2
        obtain ⟨⟨⟨⟨ha, hb⟩, hc⟩, hd⟩, hsp⟩ := h1
        obtain ⟨hk, he⟩ := h2
        subst hsp; subst hk
        exact Or.inr (Or.inl ⟨a, b, c, d, e, rfl, ha, hb, hc, hd, he⟩)
      · simp only [Bool.and_eq_true, decide_eq_true_eq, Bool.or_eq_true] at h1 h3
        obtain ⟨⟨⟨⟨ha, hb⟩, hc⟩, hd⟩, hsp⟩ := h1
        obtain ⟨hk, he⟩ := h3
        subst hsp; subst hk
        refine Or.inr (Or.inr ⟨a, b, c, d, e, rfl, ha, hb, hc, hd, ?_⟩)
        tauto
      · simp at h
      · simp at h
    · rintro (⟨a', b', c', d', heq, h1, h2, h3, h4⟩ |
              ⟨a', b', c', d', e', heq, h1, h2, h3, h4, h5⟩ |
              ⟨a', b', c', d', e', heq, h1, h2, h3, h4, h5⟩)
      · simp at heq
      · obtain ⟨rfl, rfl, rfl, rfl, rfl, rfl, rfl⟩ :
            a = a' ∧ b = b' ∧ c = c' ∧ d = d' ∧ sp = ' ' ∧ k = 'H' ∧ e = e' := by
          simpa using heq
        rcases h5 with rfl | rfl <;> simp [h1, h2, h3, h4]
      · obtain ⟨rfl, rfl, rfl, rfl, rfl, rfl, rfl⟩ :
            a = a' ∧ b = b' ∧ c = c' ∧ d = d' ∧ sp = ' ' ∧ k = 'Q' ∧ e = e' := by
          simpa using heq
        rcases h5 with rfl | rfl | rfl | rfl <;> simp [h1, h2, h3, h4]
  · simp [parseChars, IsPeriodLabelChars]

/-- Error raised for a period label outside the recognized surface forms
(spec §7 error taxonomy). -/
inductive FormatError where
  | badLabel
deriving DecidableEq, Repr

/-- Period parsing with the spec's failure behavior: any string outside the
three surface forms fails with a FormatError. -/
def parsePeriod (s : String) : Except FormatError Period :=
  match parse s with
  | some p => .ok p
  | none => .error .badLabel

/-- Claim C6: `parse(label)` returns a Period exactly for labels of the
three surface forms `YYYY`, `YYYY H1`-`H2` and `YYYY Q1`-`Q4`; for every
string outside these three forms, parsing fails with a FormatError. -/
theorem claimC6_parse_exactly_three_forms (s : String) :
    ((∃ p, parsePeriod s = .ok p) ↔ IsPeriodLabel s) ∧
    (parsePeriod s = .error .badLabel ↔ ¬ IsPeriodLabel s) := by
  have h := parseChars_isSome_iff s.toList
  unfold parsePeriod parse IsPeriodLabel
  rcases hp : parseChars s.toList with _ | p
  · rw [hp] at h
    simp only [Option.isSome_none, Bool.false_eq_true, false_iff] at h
    constructor
    · constructor
      · rintro ⟨p, hcon⟩
        simp at hcon
      · intro hlab
        exact absurd hlab h
    · exact ⟨fun _ => h, fun _ => rfl⟩
  · rw [hp] at h
    simp only [Option.isSome_some, true_iff] at h
    constructor
    · constructor
      · intro _
        exact h
      · intro _
        exact ⟨p, rfl⟩
    · constructor
      · intro hcon
        simp at hcon
      · intro hlab
        exact absurd h hlab


/-- Column types of the codebook §3.2 schema: `int`, `float` or `string`. -/
inductive CellType where
  | int
  | float
  | string
deriving DecidableEq, Repr

/-- Cell values of the codebook §3.4: `null`, an integer, a floating point
number (modelled exactly as a rational), or a string. -/
inductive Cell where
  | null
  | int (n : Int)
  | num (q : ℚ)
  | str (s : String)
deriving DecidableEq, Repr

/-- Drop leading spaces (the percent grammar allows arbitrary spacing
between its tokens). -/
def skipSpaces (l : List Char) : List Char := l.dropWhile (fun c => decide (c = ' '))

/-- Numeric value denoted by a list of digit characters. -/
def natOfDigits (l : List Char) : Nat := l.foldl (fun n c => n * 10 + digitVal c) 0

/-- Remaining comma-separated groups of a thousands-separated integer: each
comma must be followed by exactly three digits; returns the digits with the
commas removed. -/
def moreGroups : List Char → Option (List Char)
  | [] => some []
  | x :: r =>
      if x = ',' then
        match r with
        | a :: b :: c :: r2 =>
            if a.isDigit && b.isDigit && c.isDigit then
              (moreGroups r2).map (fun ds => a :: b :: c :: ds)
            else none
        | _ => none
      else none

/-- An integer with optional commas as thousands separators (codebook §3.4):
either a plain digit run, or a leading group of at most three digits
followed by comma-separated groups of exactly three. -/
def parseThousands (l : List Char) : Option Nat :=
  let g0 := l.takeWhile Char.isDigit
  let r := l.dropWhile Char.isDigit
  if g0.isEmpty then none
  else
    match r with
    | [] => some (natOfDigits g0)
    | x :: xs =>
        if x = ',' then
          if g0.length ≤ 3 then
            (moreGroups (x :: xs)).map (fun ds => natOfDigits (g0 ++ ds))
          else none
        else none

/-- The percent-encoded string form of codebook §3.4: `P / 100 * N` with
`P` a floating point literal having at least one digit before and after the
decimal point, `N` an integer with optional commas as thousands separators,
and the three tokens `/`, `100` and `*` as written with arbitrary spacing
in between. Returns the denoted value `P / 100 * N`. -/
def parsePercentChars (l : List Char) : Option ℚ :=
  let ip := l.takeWhile Char.isDigit
  let r1 := l.dropWhile Char.isDigit
  if ip.isEmpty then none
  else
    match r1 with
    | x :: r2 =>
        if x = '.' then
          let fp := r2.takeWhile Char.isDigit
          let r3 := r2.dropWhile Char.isDigit
          if fp.isEmpty then none
          else
            match skipSpaces r3 with
            | y :: r4 =>
                if y = '/' then
                  match skipSpaces r4 with
                  | h1 :: h2 :: h3 :: r5 =>
                      if h1 = '1' && h2 = '0' && h3 = '0' then
                        match skipSpaces r5 with
                        | w :: r6 =>
                            if w = '*' then
                              match parseThousands (skipSpaces r6) with
                              | some n =>
                                  some (((natOfDigits ip : ℚ) +
                                    (natOfDigits fp : ℚ) / (10 : ℚ) ^ fp.length) /
                                    100 * (n : ℚ))
                              | none => none
                            else none
                        | _ => none
                      else none
                  | _ => none
                else none
            | _ => none
        else none
    | _ => none

/-- Percent parsing on strings. -/
def parsePercent (s : String) : Option ℚ := parsePercentChars s.toList

/-- Modelled from the spec: `parse_cell(raw, declared_type)` (§4.2; the
Python implementation is not under `src/`), following codebook §3.4 and
§3.5: null fits every column; integer cells fit integer and floating point
columns; floating point cells fit only floating point columns; a string in
a floating point column must match the percent grammar and decodes to its
value; a string in a string column is kept verbatim; nothing else is
accepted. -/
def parse_cell : CellType → Cell → Option Cell
  | _, .null => some .null
  | .int, .int n => some (.int n)
  | .float, .int n => some (.int n)
  | .float, .num q => some (.num q)
  | .float, .str s => (parsePercent s).map (fun q => .num q)
  | .string, .str s => some (.str s)
  | _, _ => none

theorem takeWhile_digits_append (ds rest : List Char)
    (h1 : ∀ c ∈ ds, c.isDigit = true)
    (h2 : ∀ c, rest.head? = some c → c.isDigit = false) :
    (ds ++ rest).takeWhile Char.isDigit = ds ∧
    (ds ++ rest).dropWhile Char.isDigit = rest := by
  induction ds with
  | nil =>
      cases rest with
      | nil => simp
      | cons x xs =>
          have hx := h2 x rfl
          simp [List.takeWhile_cons, List.dropWhile_cons, hx]
  | cons a as ih =>
      have ha := h1 a (List.mem_cons_self a as)
      have hih := ih (fun c hc => h1 c (List.mem_cons_of_mem a hc))
      simp [List.takeWhile_cons, List.dropWhile_cons, ha, hih.1, hih.2]

theorem skipSpaces_replicate_append (k : Nat) (x : Char) (l : List Char)
    (hx : x ≠ ' ') :
    skipSpaces (List.replicate k ' ' ++ x :: l) = x :: l := by
  induction k with
  | zero => simp [skipSpaces, List.dropWhile_cons, hx]
  | succ n ih =>
      simp only [List.replicate_succ, List.cons_append]
      simp only [skipSpaces, List.dropWhile_cons] at ih ⊢
      simpa using ih

theorem moreGroups_join (gs : List (List Char))
    (h : ∀ g ∈ gs, g.length = 3 ∧ ∀ c ∈ g, c.isDigit = true) :
    moreGroups (gs.flatMap (fun g => ',' :: g)) = some gs.flatten := by
  induction gs with
  | nil => simp [moreGroups]
  | cons g rest ih =>
      obtain ⟨hlen, hdig⟩ := h g (List.mem_cons_self g rest)
      obtain ⟨a, b, c, rfl⟩ : ∃ a b c, g = [a, b, c] := by
        rcases g with _ | ⟨a, _ | ⟨b, _ | ⟨c, _ | ⟨d, t⟩⟩⟩⟩ <;> simp at hlen
        exact ⟨a, b, c, rfl⟩
      have hih := ih (fun g hg => h g (List.mem_cons_of_mem _ hg))
      have ha : a.isDigit = true := hdig a (by simp)
      have hb : b.isDigit = true := hdig b (by simp)
      have hc : c.isDigit = true := hdig c (by simp)
      rw [List.flatMap_cons]
      have hstep : (',' :: [a, b, c]) ++ rest.flatMap (fun g => ',' :: g) =
          ',' :: a :: b :: c :: rest.flatMap (fun g => ',' :: g) := by simp
      rw [hstep]
      unfold moreGroups
      simp [ha, hb, hc, hih]

theorem parseThousands_eq (g0 : List Char) (gs : List (List Char))
    (hg0 : g0 ≠ [])
    (hd0 : ∀ c ∈ g0, c.isDigit = true)
    (hlen : gs = [] ∨ g0.length ≤ 3)
    (hgs : ∀ g ∈ gs, g.length = 3 ∧ ∀ c ∈ g, c.isDigit = true) :
    parseThousands (g0 ++ gs.flatMap (fun g => ',' :: g)) =
      some (natOfDigits (g0 ++ gs.flatten)) := by
  cases gs with
  | nil =>
      have hsplit := takeWhile_digits_append g0 [] hd0 (by intro c hc; simp at hc)
      simp only [List.flatMap_nil, List.append_nil, List.flatten_nil] at *
      unfold parseThousands
      simp [hsplit.1, hsplit.2, hg0]
  | cons g rest =>
      have hhead : ∀ c, ((g :: rest).flatMap (fun g => ',' :: g)).head? = some c →
          c.isDigit = false := by
        intro c hc
        simp [List.flatMap_cons] at hc
        subst hc
        decide
      have hsplit := takeWhile_digits_append g0 _ hd0 hhead
      have hmg := moreGroups_join (g :: rest) hgs
      rcases hlen with hlen | hlen
      · simp at hlen
      · unfold parseThousands
        simp only [hsplit.1, hsplit.2]
        simp only [List.flatMap_cons, List.cons_append] at hmg ⊢
        simp [hg0, hlen, hmg]

theorem toList_mk (l : List Char) : (String.mk l).toList = l := rfl

/-- Claim C7: for a column of declared type float, `parse_cell` decodes
every string matching the percent grammar `F / 100 * N` (`F` a floating
literal with at least one digit before and after the decimal point, `N` an
integer with optional commas as thousands separators, arbitrary spacing
between the tokens) to the value `F / 100 * N`. -/
theorem claimC7_parse_cell_percent
    (ds1 ds2 g0 : List Char) (gs : List (List Char)) (s1 s2 s3 s4 : Nat)
    (hds1 : ds1 ≠ []) (hd1 : ∀ c ∈ ds1, c.isDigit = true)
    (hds2 : ds2 ≠ []) (hd2 : ∀ c ∈ ds2, c.isDigit = true)
    (hg0 : g0 ≠ []) (hd0 : ∀ c ∈ g0, c.isDigit = true)
    (hlen : gs = [] ∨ g0.length ≤ 3)
    (hgs : ∀ g ∈ gs, g.length = 3 ∧ ∀ c ∈ g, c.isDigit = true) :
    parse_cell .float (.str ⟨ds1 ++ '.' :: ds2 ++
        List.replicate s1 ' ' ++ '/' :: List.replicate s2 ' ' ++
        '1' :: '0' :: '0' :: List.replicate s3 ' ' ++ '*' ::
        List.replicate s4 ' ' ++ g0 ++ gs.flatMap (fun g => ',' :: g)⟩) =
      some (.num (((natOfDigits ds1 : ℚ) +
        (natOfDigits ds2 : ℚ) / (10 : ℚ) ^ ds2.length) / 100 *
        (natOfDigits (g0 ++ gs.flatten) : ℚ))) := by
  obtain ⟨c0, g0', rfl⟩ : ∃ c0 g0', g0 = c0 :: g0' := by
    rcases g0 with _ | ⟨c0, g0'⟩
    · simp at hg0
    · exact ⟨c0, g0', rfl⟩
  have hc0 : c0.isDigit = true := hd0 c0 (by simp)
  have hc0sp : c0 ≠ ' ' := by
    intro h
    rw [h] at hc0
    simp at hc0
  have e1 := takeWhile_digits_append ds1
    ('.' :: (ds2 ++ (List.replicate s1 ' ' ++ ('/' :: (List.replicate s2 ' ' ++
      ('1' :: '0' :: '0' :: (List.replicate s3 ' ' ++ ('*' ::
      (List.replicate s4 ' ' ++ ((c0 :: g0') ++
      gs.flatMap (fun g => ',' :: g)))))))))))
    hd1 (by
      intro c hc
      simp only [List.head?_cons, Option.some.injEq] at hc
      subst hc
      decide)
  have e2 := takeWhile_digits_append ds2
    (List.replicate s1 ' ' ++ ('/' :: (List.replicate s2 ' ' ++
      ('1' :: '0' :: '0' :: (List.replicate s3 ' ' ++ ('*' ::
      (List.replicate s4 ' ' ++ ((c0 :: g0') ++
      gs.flatMap (fun g => ',' :: g)))))))))
    hd2 (by
      intro c hc
      rcases s1 with _ | n <;>
        simp only [List.replicate, List.nil_append, List.cons_append,
          List.head?_cons, Option.some.injEq] at hc <;>
        subst hc <;> decide)
  have e3 : skipSpaces (List.replicate s1 ' ' ++ ('/' :: (List.replicate s2 ' ' ++
      ('1' :: '0' :: '0' :: (List.replicate s3 ' ' ++ ('*' ::
      (List.replicate s4 ' ' ++ ((c0 :: g0') ++
      gs.flatMap (fun g => ',' :: g))))))))) =
      '/' :: (List.replicate s2 ' ' ++
      ('1' :: '0' :: '0' :: (List.replicate s3 ' ' ++ ('*' ::
      (List.replicate s4 ' ' ++ ((c0 :: g0') ++
      gs.flatMap (fun g => ',' :: g))))))) :=
    skipSpaces_replicate_append s1 _ _ (by decide)
  have e4 : skipSpaces (List.replicate s2 ' ' ++
      ('1' :: '0' :: '0' :: (List.replicate s3 ' ' ++ ('*' ::
      (List.replicate s4 ' ' ++ ((c0 :: g0') ++
      gs.flatMap (fun g => ',' :: g))))))) =
      '1' :: '0' :: '0' :: (List.replicate s3 ' ' ++ ('*' ::
      (List.replicate s4 ' ' ++ ((c0 :: g0') ++
      gs.flatMap (fun g => ',' :: g))))) :=
    skipSpaces_replicate_append s2 _ _ (by decide)
  have e5 : skipSpaces (List.replicate s3 ' ' ++ ('*' ::
      (List.replicate s4 ' ' ++ ((c0 :: g0') ++
      gs.flatMap (fun g => ',' :: g))))) =
      '*' :: (List.replicate s4 ' ' ++ ((c0 :: g0') ++
      gs.flatMap (fun g => ',' :: g))) :=
    skipSpaces_replicate_append s3 _ _ (by decide)
  have e6 : skipSpaces (List.replicate s4 ' ' ++ ((c0 :: g0') ++
      gs.flatMap (fun g => ',' :: g))) =
      (c0 :: g0') ++ gs.flatMap (fun g => ',' :: g) := by
    have := skipSpaces_replicate_append s4 c0
      (g0' ++ gs.flatMap (fun g => ',' :: g)) hc0sp
    simpa using this
  have e7 := parseThousands_eq (c0 :: g0') gs hg0 hd0 hlen hgs
  simp only [parse_cell, parsePercent, toList_mk]
  unfold parsePercentChars
  simp only [List.cons_append, List.append_assoc] at e1 e2 e3 e4 e5 e6 e7 ⊢
  rw [e1.1, e1.2]
  simp only [List.isEmpty_eq_true, hds1, if_neg, ite_false]
  rw [e2.1, e2.2]
  simp [hds2, e3, e4, e5, e6, e7]

theorem claimC7_witness_percent_example :
    parse_cell .float (.str ("12.5 / 100 * 4,000")) = some (.num 500) := by
  have h := claimC7_parse_cell_percent ['1', '2'] ['5'] ['4'] [['0', '0', '0']]
    1 1 1 1 (by decide) (by decide) (by decide) (by decide) (by decide)
    (by decide) (by decide) (by decide)
  have hstr : ("12.5 / 100 * 4,000" : String) =
      ⟨['1', '2'] ++ '.' :: ['5'] ++ List.replicate 1 ' ' ++ '/' ::
        List.replicate 1 ' ' ++ '1' :: '0' :: '0' :: List.replicate 1 ' ' ++
        '*' :: List.replicate 1 ' ' ++ ['4'] ++
        ([['0', '0', '0']] : List (List Char)).flatMap (fun g => ',' :: g)⟩ := by
    decide
  rw [hstr, h]
  simp only [Option.some.injEq, Cell.num.injEq]
  have n1 : natOfDigits ['1', '2'] = 12 := by decide
  have n2 : natOfDigits ['5'] = 5 := by decide
  have n3 : natOfDigits (['4'] ++ ([['0', '0', '0']] : List (List Char)).flatten) = 4000 := by
    decide
  rw [n1, n2, n3]
  norm_num

/-- A table row after validation: a period, the decoded cells, and the
redundancy flag of codebook §3.4 (absent means false). -/
structure Row where
  period : Period
  cells : List Cell
  redundant : Bool
deriving DecidableEq, Repr

/-- A validated, normalized disclosure table: the declared column labels,
the effective column types (explicit schema entries, defaulting to integer,
codebook §3.2), and the validated rows. -/
structure NormalizedSeries where
  columns : List String
  types : List CellType
  rows : List Row
deriving DecidableEq, Repr

/-- A raw (encoded) table row: the period label, the raw cells and the
redundancy flag. -/
structure RawRow where
  label : String
  cells : List Cell
  redundant : Bool
deriving DecidableEq, Repr

/-- Structural violations detected by `build` (spec §7): duplicate column,
a schema key that is no column name or repeated, an unparseable period
label, a row/column arity mismatch, a cell violating the column type, or a
gap between the rows' periods (codebook §3.5: row periods do not have
gaps). -/
inductive SchemaError where
  | duplicateColumn
  | badSchemaKey
  | badPeriod
  | arityMismatch
  | typeMismatch
  | gap
deriving DecidableEq, Repr

/-- The effective type of a column: its explicit schema entry if any,
defaulting to integer (codebook §3.2: integer columns need not be included
and the schema may be omitted altogether). -/
def effType (schema : List (String × CellType)) (c : String) : CellType :=
  (schema.lookup c).getD .int

/-- Decode a row's cells pointwise against the effective column types. -/
def decodeCells : List CellType → List Cell → Option (List Cell)
  | [], [] => some []
  | t :: ts, c :: cs => do
      let c' ← parse_cell t c
      let cs' ← decodeCells ts cs
      some (c' :: cs')
  | _, _ => none

/-- Validate and decode a single raw row against the columns and schema:
the label must be a valid period, the arity must match, and every cell must
fit its column's effective type (codebook §3.5). -/
def buildRow (schema : List (String × CellType)) (columns : List String)
    (r : RawRow) : Except SchemaError Row :=
  match parse r.label with
  | none => .error .badPeriod
  | some p =>
      if r.cells.length = columns.length then
        match decodeCells (columns.map (effType schema)) r.cells with
        | some cs => .ok ⟨p, cs, r.redundant⟩
        | none => .error .typeMismatch
      else .error .arityMismatch

/-- Gap freedom of a list of absolute quarter indices: the covered indices
form a contiguous range (codebook §3.5: row periods do not have gaps). -/
def gapFreeB (qs : List Nat) : Bool :=
  match qs with
  | [] => true
  | q :: rest =>
      let lo := rest.foldl min q
      let hi := rest.foldl max q
      (List.range (hi + 1 - lo)).all (fun i => qs.contains (lo + i))

/-- Modelled from the spec: `build(columns, rows)` of §4.3 (the Python
implementation is not under `src/`), validating the well-formedness
constraints of codebook §3.5 eagerly: distinct column names, schema keys
that are distinct column names, valid period labels, matching arity,
schema-consistent cells, and gap-free row periods. The codebook explicitly
allows several non-redundant rows to claim the same period and column, so
no redundancy-collision check appears. -/
def build (columns : List String) (schema : List (String × CellType))
    (rows : List RawRow) : Except SchemaError NormalizedSeries :=
  if ¬ columns.Nodup then .error .duplicateColumn
  else if ¬ ((schema.map Prod.fst).Nodup ∧
      ∀ k ∈ schema.map Prod.fst, k ∈ columns) then .error .badSchemaKey
  else
    match rows.mapM (buildRow schema columns) with
    | .error e => .error e
    | .ok rs =>
        if gapFreeB (rs.flatMap (fun r => r.period.quarterSpan)) then
          .ok ⟨columns, columns.map (effType schema), rs⟩
        else .error .gap

/-- Replace every row's redundancy flag through `g`, keeping labels and
cells. -/
def withFlags (g : Bool → Bool) (rows : List RawRow) : List RawRow :=
  rows.map (fun r => ⟨r.label, r.cells, g r.redundant⟩)

theorem buildRow_flag (schema : List (String × CellType)) (columns : List String)
    (g : Bool → Bool) (r : RawRow) :
    buildRow schema columns ⟨r.label, r.cells, g r.redundant⟩ =
      (buildRow schema columns r).map
        (fun row => ⟨row.period, row.cells, g row.redundant⟩) := by
  unfold buildRow
  cases parse r.label with
  | none => rfl
  | some p =>
      by_cases ha : r.cells.length = columns.length
      · simp only [ha, if_pos]
        cases decodeCells (columns.map (effType schema)) r.cells <;>
          simp [Except.map]
      · simp [ha, Except.map]

theorem mapM_buildRow_flag (schema : List (String × CellType))
    (columns : List String) (g : Bool → Bool) (rows : List RawRow) :
    (withFlags g rows).mapM (buildRow schema columns) =
      (rows.mapM (buildRow schema columns)).map
        (List.map (fun row : Row => ⟨row.period, row.cells, g row.redundant⟩)) := by
  induction rows with
  | nil => rfl
  | cons r rs ih =>
      simp only [withFlags, List.map_cons, List.mapM_cons] at ih ⊢
      rw [buildRow_flag]
      cases hbr : buildRow schema columns r with
      | error e => simp [bind, Except.bind, Except.map]
      | ok row =>
          simp only [Except.map, bind, Except.bind]
          rw [ih]
          cases hms : rs.mapM (buildRow schema columns) <;>
            simp [Except.map, pure, Except.pure]

/-- Claim C1 (amended): the redundancy flags play no part in `build`'s
validation: rewriting every row's `redundant` flag (for instance clearing
them all) changes `build`'s result only by the same rewriting of the
returned rows' flags, never the acceptance decision — codebook §3.5
explicitly allows several non-redundant rows to claim the same period and
column, so no missing-redundancy-marker failure exists. -/
theorem claimC1_amended_flags_never_rejected (columns : List String)
    (schema : List (String × CellType)) (rows : List RawRow) (g : Bool → Bool) :
    build columns schema (withFlags g rows) =
      (build columns schema rows).map
        (fun s => ⟨s.columns, s.types,
          s.rows.map (fun row => ⟨row.period, row.cells, g row.redundant⟩)⟩) := by
  unfold build
  by_cases h1 : columns.Nodup
  · by_cases h2 : (schema.map Prod.fst).Nodup ∧ ∀ k ∈ schema.map Prod.fst, k ∈ columns
    · rw [if_neg (not_not_intro h1), if_neg (not_not_intro h2)]
      rw [mapM_buildRow_flag]
      cases hms : rows.mapM (buildRow schema columns) with
      | error e =>
          simp [Except.map, h1, h2]
          rw [if_pos h2]
      | ok rs =>
          simp only [Except.map]
          have hsp : (rs.map (fun row : Row =>
              (⟨row.period, row.cells, g row.redundant⟩ : Row))).flatMap
                (fun r => r.period.quarterSpan) =
              rs.flatMap (fun r => r.period.quarterSpan) := by
            rw [List.flatMap_map]
          rw [hsp]
          cases gapFreeB (rs.flatMap (fun r => r.period.quarterSpan)) <;>
            simp [h1, h2] <;> rw [if_pos h2]
    · simp only [Except.map]
      rw [if_neg (not_not_intro h1), if_pos h2]
      rw [if_neg (not_not_intro h1), if_pos h2]
  · simp [h1, Except.map]

/-- Claim C1 is false on the code: `build` accepts a table in which two
rows provide non-null values for the same (period, column) pair while both
lack `redundant = true`; no SchemaError is raised. -/
theorem claimC1_counterexample_two_nonredundant_rows :
    build ["reports"] []
        [⟨"2021", [Cell.int 1], false⟩, ⟨"2021", [Cell.int 2], false⟩] =
      Except.ok ⟨["reports"], [CellType.int],
        [⟨Period.year 2021, [Cell.int 1], false⟩,
         ⟨Period.year 2021, [Cell.int 2], false⟩]⟩ ∧
    ∀ e : SchemaError, build ["reports"] []
        [⟨"2021", [Cell.int 1], false⟩, ⟨"2021", [Cell.int 2], false⟩] ≠
      Except.error e := by
  have hb : build ["reports"] []
      [⟨"2021", [Cell.int 1], false⟩, ⟨"2021", [Cell.int 2], false⟩] =
      Except.ok ⟨["reports"], [CellType.int],
        [⟨Period.year 2021, [Cell.int 1], false⟩,
         ⟨Period.year 2021, [Cell.int 2], false⟩]⟩ := by rfl
  refine ⟨hb, ?_⟩
  intro e h
  rw [hb] at h
  exact Except.noConfusion h

/-- Claim C5 is false on the code: an otherwise well-formed table whose two
rows leave a gap (2020 and 2022, nothing for 2021) is rejected by `build`
with the gap error, even though every row individually validates — codebook
§3.5 requires row periods to have no gaps. -/
theorem claimC5_counterexample_gap_rejected :
    ([⟨"2020", [Cell.int 1], false⟩, ⟨"2022", [Cell.int 2], false⟩] :
        List RawRow).mapM (buildRow [] ["reports"]) =
      Except.ok [⟨Period.year 2020, [Cell.int 1], false⟩,
        ⟨Period.year 2022, [Cell.int 2], false⟩] ∧
    build ["reports"] []
        [⟨"2020", [Cell.int 1], false⟩, ⟨"2022", [Cell.int 2], false⟩] =
      Except.error SchemaError.gap := by
  constructor
  · rfl
  · rfl

/-- Claim C5 (amended): overlapping row periods are legal — `build` accepts
a table holding both a 2021 row and a 2021 Q1 row — but gaps are not:
every table accepted by `build` has gap-free row periods, and a gap makes
`build` fail. -/
theorem claimC5_amended_overlap_legal_gaps_rejected :
    (∀ (columns : List String) (schema : List (String × CellType))
        (rows : List RawRow) (t : NormalizedSeries),
      build columns schema rows = .ok t →
        gapFreeB (t.rows.flatMap (fun r => r.period.quarterSpan)) = true) ∧
    build ["reports"] []
        [⟨"2021", [Cell.int 40], false⟩, ⟨"2021 Q1", [Cell.int 10], false⟩] =
      Except.ok ⟨["reports"], [CellType.int],
        [⟨Period.year 2021, [Cell.int 40], false⟩,
         ⟨Period.quarter 2021 1, [Cell.int 10], false⟩]⟩ := by
  constructor
  · intro columns schema rows t hok
    unfold build at hok
    by_cases h1 : columns.Nodup
    · by_cases h2 : (schema.map Prod.fst).Nodup ∧
          ∀ k ∈ schema.map Prod.fst, k ∈ columns
      · rw [if_neg (not_not_intro h1), if_neg (not_not_intro h2)] at hok
        cases hms : rows.mapM (buildRow schema columns) with
        | error e => rw [hms] at hok; simp at hok
        | ok rs =>
            rw [hms] at hok
            by_cases hgap : gapFreeB (rs.flatMap (fun r => r.period.quarterSpan)) = true
            · simp only [hgap, if_pos] at hok
              obtain rfl : (⟨columns, columns.map (effType schema), rs⟩ :
                  NormalizedSeries) = t := by
                exact Except.ok.inj hok
              simpa using hgap
            · simp only [hgap] at hok
              simp at hok
      · rw [if_neg (not_not_intro h1), if_pos h2] at hok
        simp at hok
    · simp [h1] at hok
  · rfl

/-- Claim C5 amendment witness: the gap-freedom guarantee evaluated on the
concrete overlapping table accepted by `build`. -/
theorem claimC5_amended_witness :
    gapFreeB (([⟨Period.year 2021, [Cell.int 40], false⟩,
        ⟨Period.quarter 2021 1, [Cell.int 10], false⟩] : List Row).flatMap
      (fun r => r.period.quarterSpan)) = true :=
  claimC5_amended_overlap_legal_gaps_rejected.1 ["reports"] []
    [⟨"2021", [Cell.int 40], false⟩, ⟨"2021 Q1", [Cell.int 10], false⟩]
    ⟨["reports"], [CellType.int],
      [⟨Period.year 2021, [Cell.int 40], false⟩,
       ⟨Period.quarter 2021 1, [Cell.int 10], false⟩]⟩ (by rfl)

/-- JSON-like values of the structured-text serialization (spec §6,
codebook preamble: both formats share a data model of null, booleans,
integers, floating point numbers, strings, sequences and string-keyed
objects). -/
inductive Json where
  | null
  | bool (b : Bool)
  | int (n : Int)
  | num (q : ℚ)
  | str (s : String)
  | arr (xs : List Json)
  | obj (fields : List (String × Json))

/-- Schema type names of codebook §3.2: `int`, `float` and `string`. -/
def typeName : CellType → String
  | .int => "int"
  | .float => "float"
  | .string => "string"

/-- Decode a schema type name. -/
def parseTypeName (j : Json) : Option CellType :=
  match j with
  | .str s =>
      if s = "int" then some .int
      else if s = "float" then some .float
      else if s = "string" then some .string
      else none
  | _ => none

/-- Decode a JSON string. -/
def asString : Json → Option String
  | .str s => some s
  | _ => none

/-- Decode the `columns` property: a list of strings (codebook §3.2). -/
def parseColumns (j : Json) : Option (List String) :=
  match j with
  | .arr xs => xs.mapM asString
  | _ => none

/-- Decode the `schema` property: an object mapping column labels to type
names (codebook §3.2). -/
def parseSchema (j : Json) : Option (List (String × CellType)) :=
  match j with
  | .obj kvs => kvs.mapM (fun kv => (parseTypeName kv.2).map (fun t => (kv.1, t)))
  | _ => none

/-- Decode a raw cell: null, integer, floating point number or string
(codebook §3.4). -/
def jsonCell : Json → Option Cell
  | .null => some .null
  | .int n => some (.int n)
  | .num q => some (.num q)
  | .str s => some (.str s)
  | _ => none

/-- Decode a row record (codebook §3.4): a single-key object whose key is
the period label and value the cell list, with an optional second boolean
property named `redundant`. -/
def parseRowRecord (j : Json) : Option RawRow :=
  match j with
  | .obj [(label, .arr cs)] =>
      (cs.mapM jsonCell).map (fun cells => ⟨label, cells, false⟩)
  | .obj [(label, .arr cs), (k, .bool b)] =>
      if k = "redundant" then
        (cs.mapM jsonCell).map (fun cells => ⟨label, cells, b⟩)
      else none
  | _ => none

/-- Decode the `rows` property: a list of row records. -/
def parseRows (j : Json) : Option (List RawRow) :=
  match j with
  | .arr rs => rs.mapM parseRowRecord
  | _ => none

/-- Errors of the ingestion engine (spec §7 ValidationError, wrapping the
structural SchemaError): a non-record value, malformed `columns`, `schema`
or `rows` encodings, an incomplete table encoding (codebook §3.2: the
table properties appear either none or all), or a table violation. -/
inductive IngestError where
  | notRecord
  | badColumns
  | badSchemaEncoding
  | badRows
  | incompleteTable
  | table (e : SchemaError)
deriving DecidableEq, Repr

/-- Modelled from the spec: ingestion of one disclosure record (spec §4.4;
the Python implementation is not under `src/`). A null record means the
organization disclosed nothing (codebook §1). Otherwise the record is an
object; per codebook §3.2 the table-encoding properties `columns`,
`schema` and `rows` appear either none or all of them, except that the
schema may be omitted when all columns contain integers (the implicit
default). The declared parts are decoded and validated through `build`. -/
def ingestRecord (j : Json) : Except IngestError (Option NormalizedSeries) :=
  match j with
  | .null => .ok none
  | .obj fields =>
      match fields.lookup ("columns"), fields.lookup ("schema"),
          fields.lookup ("rows") with
      | none, none, none => .ok none
      | some cj, sj, some rj =>
          match parseColumns cj with
          | none => .error .badColumns
          | some cols =>
              match (match sj with
                     | none => some []
                     | some x => parseSchema x) with
              | none => .error .badSchemaEncoding
              | some sch =>
                  match parseRows rj with
                  | none => .error .badRows
                  | some raws =>
                      match build cols sch raws with
                      | .error e => .error (.table e)
                      | .ok t => .ok (some t)
      | _, _, _ => .error .incompleteTable
  | _ => .error .notRecord

/-- Encode a cell. -/
def cellJson : Cell → Json
  | .null => .null
  | .int n => .int n
  | .num q => .num q
  | .str s => .str s

/-- Encode a row as a row record; the `redundant` property appears only on
rows that are redundant (codebook §3.4). -/
def rowJson (r : Row) : Json :=
  if r.redundant then
    .obj [(renderPeriod r.period, .arr (r.cells.map cellJson)),
          ("redundant", .bool true)]
  else .obj [(renderPeriod r.period, .arr (r.cells.map cellJson))]

/-- The explicit schema entries of a series: integer columns need not be
included (codebook §3.2). -/
def schemaEntries (ns : NormalizedSeries) : List (String × CellType) :=
  (ns.columns.zip ns.types).filter (fun ct => decide (ct.2 ≠ CellType.int))

/-- Modelled from the spec: the structured-text export of a normalized
series (spec §6; the Python exporter is not under `src/`): properties
`columns`, `schema` (omitted altogether when all columns are integer) and
`rows`. -/
def exportSeries (ns : NormalizedSeries) : Json :=
  .obj ([("columns", Json.arr (ns.columns.map (fun c => .str c)))] ++
    (if (schemaEntries ns).isEmpty then []
     else [("schema", Json.obj ((schemaEntries ns).map
       (fun ct => (ct.1, Json.str (typeName ct.2)))))]) ++
    [("rows", Json.arr (ns.rows.map rowJson))])

/-- Type consistency of a decoded cell with its column's effective type:
null fits everywhere, integers fit integer and floating point columns,
floating point numbers only floating point columns, strings only string
columns (codebook §3.1 and §3.5). -/
def cellTypeOk : CellType → Cell → Bool
  | _, .null => true
  | .int, .int _ => true
  | .float, .int _ => true
  | .float, .num _ => true
  | .string, .str _ => true
  | _, _ => false

/-- The validated subset of the model (spec §6): distinct columns, aligned
types, valid periods, matching arity, type-consistent cells and gap-free
row periods — exactly what `build` guarantees. -/
def seriesOk (ns : NormalizedSeries) : Bool :=
  decide ns.columns.Nodup &&
  (ns.types.length == ns.columns.length) &&
  ns.rows.all (fun r => r.period.valid &&
    (r.cells.length == ns.columns.length) &&
    ((ns.types.zip r.cells).all (fun tc => cellTypeOk tc.1 tc.2))) &&
  gapFreeB (ns.rows.flatMap (fun r => r.period.quarterSpan))

theorem parseColumns_export (cols : List String) :
    parseColumns (.arr (cols.map (fun c => .str c))) = some cols := by
  unfold parseColumns
  induction cols with
  | nil => rfl
  | cons c cs ih =>
      simp only [List.map_cons, List.mapM_cons]
      simp only [List.mapM_cons] at ih ⊢
      rw [show asString (.str c) = some c from rfl]
      simp_all [bind, pure]

theorem parseTypeName_typeName (t : CellType) :
    parseTypeName (Json.str (typeName t)) = some t := by
  cases t <;> rfl

theorem parseSchema_export (entries : List (String × CellType)) :
    parseSchema (.obj (entries.map
      (fun ct => (ct.1, Json.str (typeName ct.2))))) = some entries := by
  unfold parseSchema
  induction entries with
  | nil => rfl
  | cons e es ih =>
      simp only [List.map_cons, List.mapM_cons]
      rw [parseTypeName_typeName]
      simp_all [bind, pure, Option.map]

theorem mapM_jsonCell_cellJson (cs : List Cell) :
    (cs.map cellJson).mapM jsonCell = some cs := by
  induction cs with
  | nil => rfl
  | cons c cs ih =>
      simp only [List.map_cons, List.mapM_cons, ih]
      cases c <;> simp [jsonCell, cellJson, bind, pure]

theorem parseRowRecord_rowJson (r : Row) :
    parseRowRecord (rowJson r) =
      some ⟨renderPeriod r.period, r.cells, r.redundant⟩ := by
  obtain ⟨p, cs, red⟩ := r
  cases red with
  | false =>
      have h1 : rowJson ⟨p, cs, false⟩ =
          .obj [(renderPeriod p, .arr (cs.map cellJson))] := by
        simp [rowJson]
      rw [h1]
      simp only [parseRowRecord, mapM_jsonCell_cellJson, Option.map]
  | true =>
      have h1 : rowJson ⟨p, cs, true⟩ =
          .obj [(renderPeriod p, .arr (cs.map cellJson)),
            ("redundant", .bool true)] := by
        simp [rowJson]
      rw [h1]
      simp only [parseRowRecord, mapM_jsonCell_cellJson, Option.map]
      rfl

theorem parseRows_export (rows : List Row) :
    parseRows (.arr (rows.map rowJson)) =
      some (rows.map (fun r =>
        (⟨renderPeriod r.period, r.cells, r.redundant⟩ : RawRow))) := by
  unfold parseRows
  induction rows with
  | nil => rfl
  | cons r rs ih =>
      simp only [List.map_cons, List.mapM_cons, parseRowRecord_rowJson]
      simp_all [bind, pure]

theorem lookup_eq_none_of_not_mem_keys {β : Type} (c : String)
    (l : List (String × β)) (h : c ∉ l.map Prod.fst) : l.lookup c = none := by
  induction l with
  | nil => rfl
  | cons kv rest ih =>
      simp only [List.map_cons, List.mem_cons] at h
      push_neg at h
      have hbeq : (c == kv.1) = false := by
        simp [h.1]
      obtain ⟨k, v⟩ := kv
      rw [List.lookup_cons]
      simp only at hbeq
      rw [hbeq]
      exact ih h.2

theorem effType_filter (cols : List String) (types : List CellType)
    (hnd : cols.Nodup) (hlen : types.length = cols.length) :
    cols.map (effType ((cols.zip types).filter
      (fun ct => decide (ct.2 ≠ CellType.int)))) = types := by
  induction cols generalizing types with
  | nil =>
      cases types with
      | nil => rfl
      | cons t ts => simp at hlen
  | cons c cs ih =>
      cases types with
      | nil => simp at hlen
      | cons t ts =>
          simp only [List.length_cons, Nat.succ.injEq] at hlen
          simp only [List.nodup_cons] at hnd
          have hsubkeys : List.Sublist (((cs.zip ts).filter
              (fun ct => decide (ct.2 ≠ CellType.int))).map Prod.fst) cs := by
            have h1 : List.Sublist ((cs.zip ts).filter
                (fun ct => decide (ct.2 ≠ CellType.int))) (cs.zip ts) :=
              List.filter_sublist _
            have h2 := h1.map Prod.fst
            rwa [List.map_fst_zip cs ts (by omega)] at h2
          by_cases ht : t = CellType.int
          · subst ht
            have hfk : ((c, CellType.int) :: cs.zip ts).filter
                (fun ct => decide (ct.2 ≠ CellType.int)) =
                (cs.zip ts).filter (fun ct => decide (ct.2 ≠ CellType.int)) := by
              simp [List.filter_cons]
            simp only [List.zip_cons_cons, hfk, List.map_cons,
              List.cons.injEq]
            refine ⟨?_, ?_⟩
            · unfold effType
              rw [lookup_eq_none_of_not_mem_keys]
              · rfl
              · intro hmem
                exact hnd.1 (hsubkeys.subset hmem)
            · exact ih ts hnd.2 hlen
          · have hfk : ((c, t) :: cs.zip ts).filter
                (fun ct => decide (ct.2 ≠ CellType.int)) =
                (c, t) :: (cs.zip ts).filter
                  (fun ct => decide (ct.2 ≠ CellType.int)) := by
              simp [List.filter_cons, ht]
            simp only [List.zip_cons_cons, hfk, List.map_cons,
              List.cons.injEq]
            refine ⟨?_, ?_⟩
            · unfold effType
              rw [List.lookup_cons]
              simp
            · have hcongr : ∀ c' ∈ cs,
                  effType ((c, t) :: (cs.zip ts).filter
                    (fun ct => decide (ct.2 ≠ CellType.int))) c' =
                  effType ((cs.zip ts).filter
                    (fun ct => decide (ct.2 ≠ CellType.int))) c' := by
                intro c' hc'
                unfold effType
                rw [List.lookup_cons]
                have : (c' == c) = false := by
                  simp
                  intro hcc
                  exact hnd.1 (hcc ▸ hc')
                rw [this]
              rw [List.map_congr_left hcongr]
              exact ih ts hnd.2 hlen

theorem parse_cell_of_cellTypeOk (t : CellType) (c : Cell)
    (h : cellTypeOk t c = true) : parse_cell t c = some c := by
  cases t <;> cases c <;> simp_all [cellTypeOk, parse_cell]

theorem decodeCells_of_ok (ts : List CellType) (cs : List Cell)
    (hlen : ts.length = cs.length)
    (h : ((ts.zip cs).all (fun tc => cellTypeOk tc.1 tc.2)) = true) :
    decodeCells ts cs = some cs := by
  induction ts generalizing cs with
  | nil =>
      cases cs with
      | nil => rfl
      | cons c cs' => simp at hlen
  | cons t ts' ih =>
      cases cs with
      | nil => simp at hlen
      | cons c cs' =>
          simp only [List.length_cons, Nat.succ.injEq] at hlen
          simp only [List.zip_cons_cons, List.all_cons, Bool.and_eq_true] at h
          unfold decodeCells
          rw [parse_cell_of_cellTypeOk t c h.1, ih cs' hlen h.2]
          rfl

theorem mapM_export_rows (sch : List (String × CellType)) (cols : List String)
    (types : List CellType) (hty : cols.map (effType sch) = types)
    (rows : List Row)
    (h : ∀ r ∈ rows, r.period.valid = true ∧ r.cells.length = cols.length ∧
      ((types.zip r.cells).all (fun tc => cellTypeOk tc.1 tc.2)) = true) :
    (rows.map (fun r =>
      (⟨renderPeriod r.period, r.cells, r.redundant⟩ : RawRow))).mapM
      (buildRow sch cols) = Except.ok rows := by
  induction rows with
  | nil => rfl
  | cons r rs ih =>
      obtain ⟨hval, harity, hcell⟩ := h r (List.mem_cons_self r rs)
      have hone : buildRow sch cols ⟨renderPeriod r.period, r.cells, r.redundant⟩ =
          Except.ok r := by
        unfold buildRow
        simp only [parse_renderPeriod r.period hval]
        rw [if_pos harity]
        rw [hty, decodeCells_of_ok types r.cells (by rw [← hty]; simp [harity]) hcell]
      simp only [List.map_cons, List.mapM_cons, hone]
      rw [ih (fun r' hr' => h r' (List.mem_cons_of_mem r hr'))]
      rfl

theorem ingestRecord_shape2 (A B : Json) :
    ingestRecord (.obj [("columns", A), ("rows", B)]) =
      match parseColumns A with
      | none => .error .badColumns
      | some cols =>
          match parseRows B with
          | none => .error .badRows
          | some raws =>
              match build cols [] raws with
              | .error e => .error (.table e)
              | .ok t => .ok (some t) := by
  rfl

theorem ingestRecord_shape3 (A S B : Json) :
    ingestRecord (.obj [("columns", A), ("schema", S), ("rows", B)]) =
      match parseColumns A with
      | none => .error .badColumns
      | some cols =>
          match parseSchema S with
          | none => .error .badSchemaEncoding
          | some sch =>
              match parseRows B with
              | none => .error .badRows
              | some raws =>
                  match build cols sch raws with
                  | .error e => .error (.table e)
                  | .ok t => .ok (some t) := by
  rfl

theorem build_export_rows (cols : List String) (types : List CellType)
    (rows : List Row) (sch : List (String × CellType))
    (hty : cols.map (effType sch) = types)
    (hnd : cols.Nodup)
    (hkeys : (sch.map Prod.fst).Nodup ∧ ∀ k ∈ sch.map Prod.fst, k ∈ cols)
    (hrows : ∀ r ∈ rows, r.period.valid = true ∧
      r.cells.length = cols.length ∧
      ((types.zip r.cells).all (fun tc => cellTypeOk tc.1 tc.2)) = true)
    (hgap : gapFreeB (rows.flatMap (fun r => r.period.quarterSpan)) = true) :
    build cols sch (rows.map (fun r =>
      (⟨renderPeriod r.period, r.cells, r.redundant⟩ : RawRow))) =
      Except.ok ⟨cols, types, rows⟩ := by
  unfold build
  rw [if_neg (not_not_intro hnd), if_neg (not_not_intro hkeys)]
  rw [mapM_export_rows sch cols types hty rows hrows]
  simp only [hgap, if_pos]
  rw [hty]

/-- Claim C4: exporting a normalized series to the structured-text form and
re-ingesting the export reproduces exactly the same normalized series;
export followed by ingest is the identity on the validated subset of the
model. -/
theorem claimC4_export_ingest_roundtrip (ns : NormalizedSeries)
    (hok : seriesOk ns = true) :
    ingestRecord (exportSeries ns) = .ok (some ns) := by
  obtain ⟨cols, types, rows⟩ := ns
  simp only [seriesOk, Bool.and_eq_true, decide_eq_true_eq, beq_iff_eq,
    List.all_eq_true] at hok
  obtain ⟨⟨⟨hnd, hlen⟩, hrows⟩, hgap⟩ := hok
  have hrows' : ∀ r ∈ rows, r.period.valid = true ∧
      r.cells.length = cols.length ∧
      ((types.zip r.cells).all (fun tc => cellTypeOk tc.1 tc.2)) = true := by
    intro r hr
    have h := hrows r hr
    simp only [Bool.and_eq_true, beq_iff_eq] at h
    refine ⟨h.1.1, h.1.2, ?_⟩
    simp only [List.all_eq_true]
    exact h.2
  have hty := effType_filter cols types hnd hlen
  have hsub : List.Sublist (((cols.zip types).filter
      (fun ct => decide (ct.2 ≠ CellType.int))).map Prod.fst) cols := by
    have h1 := (List.filter_sublist (l := cols.zip types)
      (p := fun ct => decide (ct.2 ≠ CellType.int))).map Prod.fst
    rwa [List.map_fst_zip cols types (by omega)] at h1
  have hkeys : ((((cols.zip types).filter
      (fun ct => decide (ct.2 ≠ CellType.int))).map Prod.fst).Nodup ∧
      ∀ k ∈ ((cols.zip types).filter
        (fun ct => decide (ct.2 ≠ CellType.int))).map Prod.fst, k ∈ cols) :=
    ⟨hnd.sublist hsub, fun k hk => hsub.subset hk⟩
  unfold exportSeries
  by_cases hse : (schemaEntries ⟨cols, types, rows⟩).isEmpty
  · have hnil : schemaEntries ⟨cols, types, rows⟩ = [] := by
      simpa [List.isEmpty_iff] using hse
    rw [if_pos hse]
    simp only [List.nil_append, List.append_nil, List.singleton_append,
      List.cons_append]
    have hnil' : ((cols.zip types).filter
        (fun ct => decide (ct.2 ≠ CellType.int))) = [] := by
      simpa [schemaEntries] using hnil
    have hty' : cols.map (effType []) = types := by
      rw [← hnil']
      exact hty
    simp only [ingestRecord_shape2, parseColumns_export, parseRows_export,
      build_export_rows cols types rows [] hty' hnd (by simp) hrows' hgap]
  · rw [if_neg hse]
    simp only [List.nil_append, List.append_nil, List.singleton_append,
      List.cons_append]
    have hsexp : parseSchema (Json.obj ((schemaEntries ⟨cols, types, rows⟩).map
        (fun ct => (ct.1, Json.str (typeName ct.2))))) =
        some (schemaEntries ⟨cols, types, rows⟩) :=
      parseSchema_export _
    simp only [ingestRecord_shape3, parseColumns_export, parseRows_export,
      hsexp, build_export_rows cols types rows
        (schemaEntries ⟨cols, types, rows⟩) hty hnd hkeys hrows' hgap]

/-- Claim C4 witness: the roundtrip evaluated on a concrete validated
series with an integer, a floating point and a string column. -/
theorem claimC4_witness_concrete_roundtrip :
    ingestRecord (exportSeries ⟨["reports", "share", "note"],
      [CellType.int, CellType.float, CellType.string],
      [⟨Period.year 2021, [Cell.int 5, Cell.int 7, Cell.null], false⟩,
       ⟨Period.half 2021 1, [Cell.int 2, Cell.null, Cell.str ("about two")],
        true⟩]⟩) =
      .ok (some ⟨["reports", "share", "note"],
        [CellType.int, CellType.float, CellType.string],
        [⟨Period.year 2021, [Cell.int 5, Cell.int 7, Cell.null], false⟩,
         ⟨Period.half 2021 1, [Cell.int 2, Cell.null, Cell.str ("about two")],
          true⟩]⟩) :=
  claimC4_export_ingest_roundtrip _ (by decide)

/-- Presence of a property on a record object. -/
def hasProp (fields : List (String × Json)) (k : String) : Bool :=
  (fields.lookup k).isSome

/-- Claim C10: for every disclosure record accepted by ingestion, the
table-encoding properties `columns`, `schema` and `rows` are either all
present or all absent; the only permitted proper subset omits exactly the
schema, and then every column's effective type is the integer default. -/
theorem ingestRecord_obj (fields : List (String × Json)) :
    ingestRecord (.obj fields) =
      match fields.lookup ("columns"), fields.lookup ("schema"),
          fields.lookup ("rows") with
      | none, none, none => .ok none
      | some cj, sj, some rj =>
          match parseColumns cj with
          | none => .error .badColumns
          | some cols =>
              match (match sj with
                     | none => some []
                     | some x => parseSchema x) with
              | none => .error .badSchemaEncoding
              | some sch =>
                  match parseRows rj with
                  | none => .error .badRows
                  | some raws =>
                      match build cols sch raws with
                      | .error e => .error (.table e)
                      | .ok t => .ok (some t)
      | _, _, _ => .error .incompleteTable := by
  rfl

theorem claimC10_table_properties_all_or_none
    (fields : List (String × Json)) (s : Option NormalizedSeries)
    (hok : ingestRecord (.obj fields) = .ok s) :
    (hasProp fields ("columns") = false ∧ hasProp fields ("schema") = false ∧
      hasProp fields ("rows") = false ∧ s = none) ∨
    (hasProp fields ("columns") = true ∧ hasProp fields ("rows") = true ∧
      (hasProp fields ("schema") = true ∨
        ∃ ns, s = some ns ∧ ∀ t ∈ ns.types, t = CellType.int)) := by
  rw [ingestRecord_obj] at hok
  unfold hasProp
  cases hc : fields.lookup ("columns") with
  | none =>
      cases hs : fields.lookup ("schema") with
      | none =>
          cases hr : fields.lookup ("rows") with
          | none =>
              rw [hc, hs, hr] at hok
              simp only [Except.ok.injEq] at hok
              exact Or.inl ⟨by simp [hc], by simp [hs], by simp [hr], hok.symm⟩
          | some rj =>
              rw [hc, hs, hr] at hok
              simp at hok
      | some sj =>
          cases hr : fields.lookup ("rows") with
          | none =>
              rw [hc, hs, hr] at hok
              simp at hok
          | some rj =>
              rw [hc, hs, hr] at hok
              simp at hok
  | some cj =>
      cases hr : fields.lookup ("rows") with
      | none =>
          cases hs : fields.lookup ("schema") with
          | none =>
              rw [hc, hs, hr] at hok
              simp at hok
          | some sj =>
              rw [hc, hs, hr] at hok
              simp at hok
      | some rj =>
          refine Or.inr ⟨by simp [hc], by simp [hr], ?_⟩
          cases hs : fields.lookup ("schema") with
          | some sj => exact Or.inl (by simp [hs])
          | none =>
              refine Or.inr ?_
              rw [hc, hs, hr] at hok
              simp only [] at hok
              cases hpc : parseColumns cj with
              | none => rw [hpc] at hok; simp at hok
              | some cols =>
                  rw [hpc] at hok
                  simp only [] at hok
                  cases hpr : parseRows rj with
                  | none => rw [hpr] at hok; simp at hok
                  | some raws =>
                      rw [hpr] at hok
                      simp only [] at hok
                      cases hb : build cols [] raws with
                      | error e => rw [hb] at hok; simp at hok
                      | ok t =>
                          rw [hb] at hok
                          simp only [Except.ok.injEq] at hok
                          refine ⟨t, hok.symm, ?_⟩
                          unfold build at hb
                          by_cases h1 : cols.Nodup
                          · have h2 : (([] : List (String × CellType)).map
                                Prod.fst).Nodup ∧
                                ∀ k ∈ ([] : List (String × CellType)).map
                                  Prod.fst, k ∈ cols := by simp
                            rw [if_neg (not_not_intro h1),
                              if_neg (not_not_intro h2)] at hb
                            cases hm : raws.mapM (buildRow [] cols) with
                            | error e =>
                                rw [hm] at hb
                                simp at hb
                            | ok rs =>
                                rw [hm] at hb
                                simp only [] at hb
                                by_cases hg : gapFreeB (rs.flatMap
                                    (fun r => r.period.quarterSpan)) = true
                                · rw [if_pos hg] at hb
                                  simp only [Except.ok.injEq] at hb
                                  rw [← hb]
                                  intro t' ht'
                                  simp only [List.mem_map] at ht'
                                  obtain ⟨c, _, hct⟩ := ht'
                                  rw [← hct]
                                  rfl
                                · rw [if_neg hg] at hb
                                  simp at hb
                          · rw [if_pos h1] at hb
                            simp at hb

/-- Claim C10 witness: the characterization evaluated on a concrete record
that omits the schema and defaults every column to integer. -/
theorem claimC10_witness_default_schema :
    (hasProp [(("columns" : String), Json.arr [Json.str ("reports")]),
        ("rows", Json.arr [Json.obj [("2021", Json.arr [Json.int 3])]])]
      ("columns") = false ∧
     hasProp [(("columns" : String), Json.arr [Json.str ("reports")]),
        ("rows", Json.arr [Json.obj [("2021", Json.arr [Json.int 3])]])]
      ("schema") = false ∧
     hasProp [(("columns" : String), Json.arr [Json.str ("reports")]),
        ("rows", Json.arr [Json.obj [("2021", Json.arr [Json.int 3])]])]
      ("rows") = false ∧
     (some (⟨["reports"], [CellType.int],
        [⟨Period.year 2021, [Cell.int 3], false⟩]⟩ : NormalizedSeries) :
          Option NormalizedSeries) = none) ∨
    (hasProp [(("columns" : String), Json.arr [Json.str ("reports")]),
        ("rows", Json.arr [Json.obj [("2021", Json.arr [Json.int 3])]])]
      ("columns") = true ∧
     hasProp [(("columns" : String), Json.arr [Json.str ("reports")]),
        ("rows", Json.arr [Json.obj [("2021", Json.arr [Json.int 3])]])]
      ("rows") = true ∧
     (hasProp [(("columns" : String), Json.arr [Json.str ("reports")]),
        ("rows", Json.arr [Json.obj [("2021", Json.arr [Json.int 3])]])]
      ("schema") = true ∨
      ∃ ns, (some (⟨["reports"], [CellType.int],
        [⟨Period.year 2021, [Cell.int 3], false⟩]⟩ : NormalizedSeries) :
          Option NormalizedSeries) = some ns ∧
        ∀ t ∈ ns.types, t = CellType.int)) :=
  claimC10_table_properties_all_or_none
    [(("columns" : String), Json.arr [Json.str ("reports")]),
     ("rows", Json.arr [Json.obj [("2021", Json.arr [Json.int 3])]])]
    (some ⟨["reports"], [CellType.int],
      [⟨Period.year 2021, [Cell.int 3], false⟩]⟩) (by rfl)

/-- Modelled from the spec: ingestion of a whole disclosure collection
(spec §4.4 and §7; the Python driver `ingest_reports_per_platform` is not
under `src/`, its notebook caller shows the per-entity iteration and
logging). The citation record under the key `@` holds dataset metadata and
is skipped (codebook §2); every other entity's record is ingested
independently, a failure producing an error entry for that entity only. -/
def ingestCollection (col : List (String × Json)) :
    List (String × Except IngestError (Option NormalizedSeries)) :=
  (col.filter (fun e => decide (e.1 ≠ "@"))).map
    (fun e => (e.1, ingestRecord e.2))

/-- Claim C9: ingestion of a collection is pointwise — each entity entry
yields exactly its own record's ingestion result, so a ValidationError for
one entity never disturbs any other entity's result; concretely, a
collection holding a well-formed record and a record with an unparseable
period label yields the normalized series for the former and an error entry
for the latter. -/
theorem claimC9_per_entity_isolation :
    (∀ (pre post : List (String × Json)) (n : String) (j : Json),
      ingestCollection (pre ++ (n, j) :: post) =
        ingestCollection pre ++
        (if n = "@" then [] else [(n, ingestRecord j)]) ++
        ingestCollection post) ∧
    ingestCollection
      [("Good", .obj [("columns", Json.arr [Json.str ("reports")]),
          ("rows", Json.arr [Json.obj [("2021", Json.arr [Json.int 6])]])]),
       ("Bad", .obj [("columns", Json.arr [Json.str ("reports")]),
          ("rows", Json.arr [Json.obj [("20x1", Json.arr [Json.int 5])]])])] =
      [("Good", .ok (some ⟨["reports"], [CellType.int],
          [⟨Period.year 2021, [Cell.int 6], false⟩]⟩)),
       ("Bad", .error (.table .badPeriod))] := by
  constructor
  · intro pre post n j
    unfold ingestCollection
    rw [List.filter_append, List.map_append]
    by_cases hn : n = "@"
    · subst hn
      simp [List.filter_cons]
    · simp [List.filter_cons, hn]
  · rfl

/-- Modelled from the spec: one ingestion run in explicit state-passing
form (spec §4.4: "Side effect: none beyond building the immutable output;
the engine must not mutate its input"). A run returns the raw collection —
unchanged, by the spec's demand — together with the ingestion output. -/
def ingestRun (col : List (String × Json)) :
    List (String × Json) ×
      List (String × Except IngestError (Option NormalizedSeries)) :=
  (col, ingestCollection col)

/-- Claim C3: an ingestion run leaves the raw input collection unchanged,
and a second run on that same input produces output identical to the first
run's. -/
theorem claimC3_ingest_no_mutation_idempotent (col : List (String × Json)) :
    (ingestRun col).1 = col ∧
    (ingestRun ((ingestRun col).1)).2 = (ingestRun col).2 :=
  ⟨rfl, rfl⟩

/-- Aggregation failures (spec §4.3 and §9): an unknown column, a
non-integer column (aggregation is integer-column-only), overlapping
coverage (double counting) or incomplete coverage of the target period. -/
inductive AggError where
  | unknownColumn
  | nonIntegerColumn
  | overlap
  | incomplete
deriving DecidableEq, Repr

/-- The integer disclosures feeding an aggregation: the non-redundant rows
whose period lies inside the target and whose cell in the requested column
is an integer (a null cell means no disclosure for that period). -/
def contributing (ns : NormalizedSeries) (c : String) (target : Period) :
    List (Period × Int) :=
  match ns.columns.findIdx? (fun x => decide (x = c)) with
  | none => []
  | some i =>
      ns.rows.filterMap (fun r =>
        if r.redundant then none
        else if target.containsPeriod r.period then
          match r.cells.get? i with
          | some (.int n) => some (r.period, n)
          | _ => none
        else none)

/-- Modelled from the spec: single-column aggregation over one target
period (spec §4.3; the Python implementation is not under `src/`): sums
the integer cells of the non-redundant rows whose periods lie inside the
target, but only when those periods cover the target completely and
without overlap — overlapping coverage double-counts and is rejected, as
are non-integer columns (spec §9: aggregation is integer-column-only). -/
def aggregate1 (ns : NormalizedSeries) (c : String) (target : Period) :
    Except AggError Int :=
  match ns.columns.findIdx? (fun x => decide (x = c)) with
  | none => .error .unknownColumn
  | some i =>
      if ns.types.get? i = some CellType.int then
        if ((contributing ns c target).flatMap
            (fun pr => pr.1.quarterSpan)).Nodup then
          if target.quarterSpan.all (fun q =>
              ((contributing ns c target).flatMap
                (fun pr => pr.1.quarterSpan)).contains q) then
            .ok ((contributing ns c target).map Prod.snd).sum
          else .error .incomplete
        else .error .overlap
      else .error .nonIntegerColumn

/-- Modelled from the spec: `aggregate(columns, periods)` (spec §4.3) sums
the per-column, per-period aggregations, failing as soon as one of them
fails. -/
def aggregate (ns : NormalizedSeries) (cols : List String)
    (periods : List Period) : Except AggError Int :=
  ((cols.flatMap (fun c => periods.map (fun p => (c, p)))).mapM
    (fun cp => aggregate1 ns cp.1 cp.2)).map
    (fun xs => xs.sum)

/-- Claim C2: aggregation returns a sum only when the contributing rows'
periods cover the target completely and without overlap; four quarterly
rows of 2021 each holding integer 10 in column `reports` aggregate to 40
for target 2021, and the same request fails with the overlap error when an
overlapping 2021 H1 row is also present. -/
theorem claimC2_aggregate_exact_cover :
    (∀ (ns : NormalizedSeries) (c : String) (t : Period) (v : Int),
      aggregate1 ns c t = .ok v →
        ((contributing ns c t).flatMap (fun pr => pr.1.quarterSpan)).Nodup ∧
        (∀ q ∈ t.quarterSpan,
          q ∈ (contributing ns c t).flatMap (fun pr => pr.1.quarterSpan)) ∧
        v = ((contributing ns c t).map Prod.snd).sum) ∧
    aggregate ⟨["reports"], [CellType.int],
      [⟨Period.quarter 2021 1, [Cell.int 10], false⟩,
       ⟨Period.quarter 2021 2, [Cell.int 10], false⟩,
       ⟨Period.quarter 2021 3, [Cell.int 10], false⟩,
       ⟨Period.quarter 2021 4, [Cell.int 10], false⟩]⟩
      ["reports"] [Period.year 2021] = .ok 40 ∧
    aggregate ⟨["reports"], [CellType.int],
      [⟨Period.quarter 2021 1, [Cell.int 10], false⟩,
       ⟨Period.quarter 2021 2, [Cell.int 10], false⟩,
       ⟨Period.quarter 2021 3, [Cell.int 10], false⟩,
       ⟨Period.quarter 2021 4, [Cell.int 10], false⟩,
       ⟨Period.half 2021 1, [Cell.int 20], false⟩]⟩
      ["reports"] [Period.year 2021] = .error .overlap := by
  refine ⟨?_, by rfl, by rfl⟩
  intro ns c t v hok
  unfold aggregate1 at hok
  cases hidx : ns.columns.findIdx? (fun x => decide (x = c)) with
  | none => rw [hidx] at hok; simp at hok
  | some i =>
      rw [hidx] at hok
      simp only [] at hok
      by_cases hty : ns.types.get? i = some CellType.int
      · rw [if_pos hty] at hok
        by_cases hnd : ((contributing ns c t).flatMap
            (fun pr => pr.1.quarterSpan)).Nodup
        · rw [if_pos hnd] at hok
          by_cases hall : t.quarterSpan.all (fun q =>
              ((contributing ns c t).flatMap
                (fun pr => pr.1.quarterSpan)).contains q) = true
          · rw [if_pos hall] at hok
            simp only [Except.ok.injEq] at hok
            refine ⟨hnd, ?_, hok.symm⟩
            intro q hq
            have := (List.all_eq_true.mp hall) q hq
            simpa [List.contains] using this
          · rw [if_neg hall] at hok
            simp at hok
        · rw [if_neg hnd] at hok
          simp at hok
      · rw [if_neg hty] at hok
        simp at hok

/-- Claim C2 witness: the exact-cover guarantee evaluated on the concrete
four-quarter table. -/
theorem claimC2_witness_four_quarters :
    ((contributing ⟨["reports"], [CellType.int],
        [⟨Period.quarter 2021 1, [Cell.int 10], false⟩,
         ⟨Period.quarter 2021 2, [Cell.int 10], false⟩,
         ⟨Period.quarter 2021 3, [Cell.int 10], false⟩,
         ⟨Period.quarter 2021 4, [Cell.int 10], false⟩]⟩
        ("reports") (Period.year 2021)).flatMap
      (fun pr => pr.1.quarterSpan)).Nodup ∧
    (∀ q ∈ (Period.year 2021).quarterSpan,
      q ∈ (contributing ⟨["reports"], [CellType.int],
        [⟨Period.quarter 2021 1, [Cell.int 10], false⟩,
         ⟨Period.quarter 2021 2, [Cell.int 10], false⟩,
         ⟨Period.quarter 2021 3, [Cell.int 10], false⟩,
         ⟨Period.quarter 2021 4, [Cell.int 10], false⟩]⟩
        ("reports") (Period.year 2021)).flatMap
      (fun pr => pr.1.quarterSpan)) ∧
    (40 : Int) = ((contributing ⟨["reports"], [CellType.int],
        [⟨Period.quarter 2021 1, [Cell.int 10], false⟩,
         ⟨Period.quarter 2021 2, [Cell.int 10], false⟩,
         ⟨Period.quarter 2021 3, [Cell.int 10], false⟩,
         ⟨Period.quarter 2021 4, [Cell.int 10], false⟩]⟩
        ("reports") (Period.year 2021)).map Prod.snd).sum :=
  claimC2_aggregate_exact_cover.1 _ ("reports") (Period.year 2021) 40 (by rfl)

/-- Modelled from the spec: the non-null disclosure of a series for a topic
and period (spec §4.5; the comparable-reports view builder is not under
`src/`): the cell of the row with that period in the topic's column, when
present and non-null. -/
def valueAt (ns : NormalizedSeries) (topic : String) (p : Period) :
    Option Cell :=
  match ns.rows.find? (fun r => decide (r.period = p)) with
  | none => none
  | some r =>
      match ns.columns.findIdx? (fun x => decide (x = topic)) with
      | none => none
      | some i =>
          match r.cells.get? i with
          | some c => if c = Cell.null then none else some c
          | none => none

/-- Modelled from the spec: `align(entity_series, ncmec_series, topic)`
(spec §4.5): the inner join on period — one triple per entity period where
both sides disclose a non-null value for the topic, no interpolation. -/
def align (es ncmec : NormalizedSeries) (topic : String) :
    List (Period × Cell × Cell) :=
  (es.rows.map (fun r => r.period)).filterMap (fun p =>
    match valueAt es topic p, valueAt ncmec topic p with
    | some a, some b => some (p, a, b)
    | _, _ => none)

/-- Claim C8: `align` returns exactly the triples (period, entity value,
NCMEC value) for the periods where both series disclose a non-null value
for the topic, and no others; when the entity disclosed `reports` for 2020
and 2021 and NCMEC for 2021 and 2022, the alignment holds exactly one row,
for 2021. -/
theorem claimC8_align_inner_join :
    (∀ (es nc : NormalizedSeries) (topic : String) (p : Period)
        (a b : Cell),
      (p, a, b) ∈ align es nc topic ↔
        valueAt es topic p = some a ∧ valueAt nc topic p = some b) ∧
    align
      ⟨["reports"], [CellType.int],
        [⟨Period.year 2020, [Cell.int 7], false⟩,
         ⟨Period.year 2021, [Cell.int 9], false⟩]⟩
      ⟨["reports"], [CellType.int],
        [⟨Period.year 2021, [Cell.int 11], false⟩,
         ⟨Period.year 2022, [Cell.int 13], false⟩]⟩
      ("reports") = [(Period.year 2021, Cell.int 9, Cell.int 11)] := by
  refine ⟨?_, by rfl⟩
  intro es nc topic p a b
  unfold align
  rw [List.mem_filterMap]
  constructor
  · rintro ⟨p', hp', hf⟩
    cases hea : valueAt es topic p' with
    | none => rw [hea] at hf; simp at hf
    | some a' =>
        cases hnb : valueAt nc topic p' with
        | none => rw [hea, hnb] at hf; simp at hf
        | some b' =>
            rw [hea, hnb] at hf
            simp only [Option.some.injEq, Prod.mk.injEq] at hf
            obtain ⟨rfl, rfl, rfl⟩ := hf
            exact ⟨hea, hnb⟩
  · rintro ⟨hea, hnb⟩
    refine ⟨p, ?_, ?_⟩
    · unfold valueAt at hea
      cases hfind : es.rows.find? (fun r => decide (r.period = p)) with
      | none => rw [hfind] at hea; simp at hea
      | some r =>
          have hmem := List.mem_of_find?_eq_some hfind
          have hpr := List.find?_some hfind
          simp only [decide_eq_true_eq] at hpr
          rw [← hpr]
          exact List.mem_map_of_mem (fun r => r.period) hmem
    · rw [hea, hnb]

end Diaphanous
